import Mathlib

/-!
Shallow embedding of the toy polyphonic synthesizer (`src/main.rs`).

Real-valued f32 arithmetic is modelled over `ℝ` for the oscillator /
phase-accumulator code (it uses `sin`) and over `ℚ` for the ADSR envelope
(whose arithmetic is purely rational, keeping it executable).  The Rust
`as usize` cast of a nonnegative float is modelled by `ratToUsize`
(floor, clamped at zero).  Mutation of `&mut` state is modelled by
returning the updated value.
-/

namespace Synth

/-- The four oscillator variants (`enum Oscillator`). -/
inductive Oscillator where
  | Sine
  | Square
  | Sawtooth
  | Triangle
deriving DecidableEq, Repr

/-- The waveform match of `Note::generate_sample`: maps an oscillator
variant and a phase to a raw sample, before the amplitude scaling. -/
noncomputable def Oscillator.sample (o : Oscillator) (phase : ℝ) : ℝ :=
  match o with
  | .Sine => Real.sin (2 * Real.pi * phase)
  | .Square => if phase < 0.5 then 1 else -1
  | .Sawtooth => 2 * phase - 1
  | .Triangle => if phase < 0.5 then 4 * phase - 1 else 3 - 4 * phase

/-- The keyboard keys the program handles (`device_query::Keycode`,
restricted to the keys that occur in `main.rs`). -/
inductive Keycode where
  | Z | S | X | D | C | V | G | B | H | N | J | M | Comma | Escape
deriving DecidableEq, Repr

/-- `create_key_frequency_map`: key to fundamental frequency (Hz). -/
noncomputable def keyFrequencyMap (k : Keycode) : Option ℝ :=
  match k with
  | .Z => some 261.63
  | .S => some 277.18
  | .X => some 293.66
  | .D => some 311.13
  | .C => some 329.63
  | .V => some 349.23
  | .G => some 369.99
  | .B => some 392.99
  | .H => some 415.30
  | .N => some 440.00
  | .J => some 466.16
  | .M => some 493.88
  | .Comma => some 523.25
  | .Escape => none

/-- `struct Note`. -/
structure Note where
  frequency : ℝ
  is_playing : Bool
  oscillator : Oscillator
  amplitude : ℝ

/-- `Note::new`. -/
noncomputable def Note.new (frequency : ℝ) (oscillator : Oscillator) : Note :=
  { frequency := frequency
    is_playing := false
    oscillator := oscillator
    amplitude := 0 }

/-- `Note::generate_sample(&mut self, phase: &mut f32, sample_rate)`:
returns the produced sample together with the updated phase accumulator. -/
noncomputable def Note.generate_sample (n : Note) (phase : ℝ) (sample_rate : ℝ) :
    ℝ × ℝ :=
  if n.is_playing = false then (0, phase)
  else
    let phase1 := phase + n.frequency / sample_rate
    let phase2 := if 1 ≤ phase1 then phase1 - 1 else phase1
    let sample := n.oscillator.sample phase2
    (sample * n.amplitude, phase2)

/-- `enum EnvelopePhase`. -/
inductive EnvelopePhase where
  | Idle
  | Attack
  | Decay
  | Sustain
  | Release
deriving DecidableEq, Repr

/-- `struct Envelope` (f32 fields over `ℚ`). -/
structure Envelope where
  attack_time : ℚ
  decay_time : ℚ
  sustain_level : ℚ
  release_time : ℚ
  current_level : ℚ
  phase : EnvelopePhase
  sample_rate : ℚ
  samples_processed : ℕ
deriving DecidableEq, Repr

/-- The Rust `as usize` cast of a float duration-in-samples: truncation,
which on nonnegative values is the floor and on negative values clamps
to zero (matching the saturating cast). -/
def ratToUsize (x : ℚ) : ℕ := (Int.floor x).toNat

/-- `Envelope::new`. -/
def Envelope.new (attack_time decay_time sustain_level release_time
    sample_rate : ℚ) : Envelope :=
  { attack_time := attack_time
    decay_time := decay_time
    sustain_level := sustain_level
    release_time := release_time
    current_level := 0
    phase := .Idle
    sample_rate := sample_rate
    samples_processed := 0 }

/-- `Envelope::trigger`. -/
def Envelope.trigger (e : Envelope) : Envelope :=
  { e with phase := .Attack, samples_processed := 0 }

/-- `Envelope::release`. -/
def Envelope.release (e : Envelope) : Envelope :=
  { e with phase := .Release, samples_processed := 0 }

/-- `Envelope::process(&mut self) -> f32`: returns the emitted level and
the updated envelope. -/
def Envelope.process (e : Envelope) : ℚ × Envelope :=
  match e.phase with
  | .Idle => (0, e)
  | .Attack =>
    let attack_samples := ratToUsize (e.attack_time * e.sample_rate)
    if attack_samples = 0 then
      let e1 := { e with current_level := 1, phase := .Decay,
                         samples_processed := 0 }
      let e2 := { e1 with samples_processed := e1.samples_processed + 1 }
      (e2.current_level, e2)
    else
      let e1 := { e with current_level :=
        (e.samples_processed : ℚ) / (attack_samples : ℚ) }
      let e2 := if attack_samples ≤ e1.samples_processed then
          { e1 with phase := .Decay, samples_processed := 0 }
        else e1
      let e3 := { e2 with samples_processed := e2.samples_processed + 1 }
      (e3.current_level, e3)
  | .Decay =>
    let decay_samples := ratToUsize (e.decay_time * e.sample_rate)
    if decay_samples = 0 then
      let e1 := { e with current_level := e.sustain_level, phase := .Sustain }
      let e2 := { e1 with samples_processed := e1.samples_processed + 1 }
      (e2.current_level, e2)
    else
      let e1 := { e with current_level :=
        1 - (1 - e.sustain_level) *
          ((e.samples_processed : ℚ) / (decay_samples : ℚ)) }
      let e2 := if decay_samples ≤ e1.samples_processed then
          { e1 with phase := .Sustain }
        else e1
      let e3 := { e2 with samples_processed := e2.samples_processed + 1 }
      (e3.current_level, e3)
  | .Sustain => (e.sustain_level, e)
  | .Release =>
    let release_samples := ratToUsize (e.release_time * e.sample_rate)
    if release_samples = 0 then
      let e1 := { e with current_level := 0, phase := .Idle }
      let e2 := { e1 with samples_processed := e1.samples_processed + 1 }
      (e2.current_level, e2)
    else
      let e1 := { e with current_level :=
        e.sustain_level *
          (1 - (e.samples_processed : ℚ) / (release_samples : ℚ)) }
      let e2 := if release_samples ≤ e1.samples_processed then
          { e1 with current_level := 0, phase := .Idle }
        else e1
      let e3 := { e2 with samples_processed := e2.samples_processed + 1 }
      (e3.current_level, e3)

/-- The state reached after `n` consecutive `process()` calls. -/
def Envelope.processN (e : Envelope) : ℕ → Envelope
  | 0 => e
  | n + 1 => (e.process).2.processN n

/-- One entry of the `notes` table: `(Note, f32, Envelope)` — the note,
its phase accumulator and its envelope. -/
abbrev Voice := Note × ℝ × Envelope

/-- The `notes: HashMap<Keycode, (Note, f32, Envelope)>` table, as an
association list keyed by `Keycode`. -/
abbrev NotesMap := List (Keycode × Voice)

/-- `HashMap::get` on the notes table. -/
def lookupVoice : NotesMap → Keycode → Option Voice
  | [], _ => none
  | (k, v) :: rest, key => if k = key then some v else lookupVoice rest key

/-- `HashMap::contains_key` on the notes table. -/
def containsKey (m : NotesMap) (key : Keycode) : Bool :=
  (lookupVoice m key).isSome

/-- `HashMap::insert` on the notes table: replaces the entry for the key
if present, otherwise adds one. -/
def insertVoice : NotesMap → Keycode → Voice → NotesMap
  | [], key, v => [(key, v)]
  | (k, w) :: rest, key, v =>
    if k = key then (key, v) :: rest else (k, w) :: insertVoice rest key v

/-- `HashMap::get_mut` followed by an in-place update of the entry. -/
def modifyVoice : NotesMap → Keycode → (Voice → Voice) → NotesMap
  | [], _, _ => []
  | (k, w) :: rest, key, f =>
    if k = key then (k, f w) :: rest else (k, w) :: modifyVoice rest key f

/-- Dispatch of one popped key event inside the audio callback
(the body of the while-let pop loop). -/
noncomputable def handleEvent (sample_rate : ℚ) (oscillator_type : Oscillator)
    (notes : NotesMap) (key : Keycode) (pressed : Bool) : NotesMap :=
  match keyFrequencyMap key with
  | none => notes
  | some frequency =>
    if pressed then
      let notes1 :=
        if containsKey notes key then notes
        else
          let note := Note.new frequency oscillator_type
          let note := { note with is_playing := true }
          let envelope := Envelope.new 0.01 0.1 0.7 0.2 sample_rate
          insertVoice notes key (note, 0, envelope)
      modifyVoice notes1 key fun v =>
        ({ v.1 with is_playing := true }, v.2.1, v.2.2.trigger)
    else
      modifyVoice notes key fun v => (v.1, v.2.1, v.2.2.release)

/-- The `notes.retain(...)` call: drops every voice whose envelope phase
is `Idle`. -/
def reap (notes : NotesMap) : NotesMap :=
  notes.filter fun kv =>
    match kv.2.2.2.phase with
    | .Idle => false
    | _ => true

/-- Rendering of one voice inside the frame loop: advance its envelope,
clone the note with amplitude `env_value * 0.2`, generate its sample and
advance its phase accumulator. -/
noncomputable def renderVoice (sample_rate : ℚ) (v : Voice) : ℝ × Voice :=
  let p := v.2.2.process
  let note_clone := { v.1 with amplitude := (p.1 : ℝ) * 0.2 }
  let s := note_clone.generate_sample v.2.1 (sample_rate : ℝ)
  (s.1, (v.1, s.2, p.2))

/-- The per-frame mixing loop over all live voices: returns the mixed
sample and the updated notes table. -/
noncomputable def renderFrame (sample_rate : ℚ) : NotesMap → ℝ × NotesMap
  | [] => (0, [])
  | (k, v) :: rest =>
    let s := renderVoice sample_rate v
    let m := renderFrame sample_rate rest
    (s.1 + m.1, (k, s.2) :: m.2)

/-- The frame loop of the audio callback (`for frame in
data.chunks_mut(channels)`): per frame it mixes all voices, writes the
mix, and then runs the `notes.retain(...)` reap — inside the loop.
Returns the sequence of written frame values, the final notes table and
the number of reap (retain) invocations performed. -/
noncomputable def renderBuffer (sample_rate : ℚ) :
    ℕ → NotesMap → List ℝ × NotesMap × ℕ
  | 0, notes => ([], notes, 0)
  | n + 1, notes =>
    let f := renderFrame sample_rate notes
    let notes2 := reap f.2
    let rest := renderBuffer sample_rate n notes2
    (f.1 :: rest.1, rest.2.1, rest.2.2 + 1)

/-- A key event `(Keycode, bool)` as carried by the ring buffer. -/
abbrev KeyEvent := Keycode × Bool

/-- `ringbuf` producer `try_push` on a `HeapRb` of capacity 1024:
`some` of the grown queue on success, `none` when the buffer is full. -/
def tryPush (q : List KeyEvent) (ev : KeyEvent) : Option (List KeyEvent) :=
  if q.length < 1024 then some (q ++ [ev]) else none

/-- The producer pushes of one polling tick, each followed by
`.unwrap()`: a failed push panics the input thread, modelled as `none`. -/
def pushAllOrPanic (q : List KeyEvent) : List KeyEvent → Option (List KeyEvent)
  | [] => some q
  | ev :: rest =>
    match tryPush q ev with
    | none => none
    | some q2 => pushAllOrPanic q2 rest

/-- One tick of the input polling loop (the loop body of `main` up to the pushes): press events for newly pressed keys, then release events for
newly released keys, each pushed with `.unwrap()`. -/
def pollTick (q : List KeyEvent) (previous_keys keys : List Keycode) :
    Option (List KeyEvent) :=
  let presses :=
    (keys.filter fun k => ! previous_keys.contains k).map fun k => (k, true)
  let releases :=
    (previous_keys.filter fun k => ! keys.contains k).map fun k => (k, false)
  pushAllOrPanic q (presses ++ releases)

/-- A concrete envelope holding in Sustain at level `0.7`, with attack
time 1 s, decay 1/10 s, sustain 0.7, release 1/5 s at a 10 Hz sample
rate (the state reached by triggering and processing past the decay). -/
def sustainedEnvelope : Envelope :=
  { Envelope.new 1 (1/10) 0.7 (1/5) 10 with
    phase := .Sustain, current_level := 0.7 }

/-- A concrete live voice (playing note at 261.63 Hz, phase 1/4, the
Sustain-state envelope). -/
noncomputable def exampleVoice : Voice :=
  ({ Note.new 261.63 .Sine with is_playing := true }, 1/4, sustainedEnvelope)

/-- A one-voice notes table holding `exampleVoice` under key Z. -/
noncomputable def exampleNotes : NotesMap := [(Keycode.Z, exampleVoice)]

/-- One operation of an envelope call sequence: the three mutating entry
points of `Envelope`. -/
inductive EnvOp where
  | trigger
  | release
  | process
deriving DecidableEq, Repr

/-- Apply one envelope operation (the state effect of the call). -/
def applyOp : EnvOp → Envelope → Envelope
  | .trigger, e => e.trigger
  | .release, e => e.release
  | .process, e => ((e.process).2)

/-- Apply a sequence of envelope operations, oldest first. -/
def applyOps (ops : List EnvOp) (e : Envelope) : Envelope :=
  ops.foldl (fun e1 op => applyOp op e1) e

/-- Invariant maintained by every envelope operation: the sustain level
and the current level are in `[0,1]`, and the samples counter never
passes the duration of the stage the envelope is in. -/
def EnvInv (e : Envelope) : Prop :=
  0 ≤ e.sustain_level ∧ e.sustain_level ≤ 1 ∧
  0 ≤ e.current_level ∧ e.current_level ≤ 1 ∧
  (e.phase = .Attack →
    e.samples_processed ≤ ratToUsize (e.attack_time * e.sample_rate)) ∧
  (e.phase = .Decay →
    ratToUsize (e.decay_time * e.sample_rate) = 0 ∨
    e.samples_processed ≤ ratToUsize (e.decay_time * e.sample_rate)) ∧
  (e.phase = .Release →
    e.samples_processed ≤ ratToUsize (e.release_time * e.sample_rate))

/-- Unfolding of `processN` from the right: one more `process()` call
after `n` of them. -/
theorem processN_succ (n : ℕ) (e : Envelope) :
    e.processN (n + 1) = ((e.processN n).process).2 := by
  induction n generalizing e with
  | zero => rfl
  | succ k ih =>
    rw [show e.processN (k + 1 + 1) = ((e.process).2).processN (k + 1) from rfl,
      ih]
    rfl

/-- State of the release ramp: starting from `release()`, after `k ≤ r`
calls (where `r` is the release duration in samples, `r ≥ 1`) the
envelope is still in `Release` with counter `k` and unchanged
parameters. -/
theorem release_processN_state (e : Envelope)
    (hr : 1 ≤ ratToUsize (e.release_time * e.sample_rate)) :
    ∀ k, k ≤ ratToUsize (e.release_time * e.sample_rate) →
      ((e.release).processN k).phase = .Release ∧
      ((e.release).processN k).samples_processed = k ∧
      ((e.release).processN k).release_time = e.release_time ∧
      ((e.release).processN k).sample_rate = e.sample_rate ∧
      ((e.release).processN k).sustain_level = e.sustain_level := by
  intro k
  induction k with
  | zero =>
    intro _
    simp [Envelope.processN, Envelope.release]
  | succ j ih =>
    intro hk
    obtain ⟨hph, hsp, hrt, hsr, hsl⟩ := ih (by omega)
    rw [processN_succ]
    have hr' : ratToUsize (((e.release).processN j).release_time *
        ((e.release).processN j).sample_rate) =
        ratToUsize (e.release_time * e.sample_rate) := by
      rw [hrt, hsr]
    have hne : ¬ ratToUsize (((e.release).processN j).release_time *
        ((e.release).processN j).sample_rate) = 0 := by
      rw [hr']; omega
    have hlt : ¬ ratToUsize (((e.release).processN j).release_time *
        ((e.release).processN j).sample_rate) ≤
        ((e.release).processN j).samples_processed := by
      rw [hr', hsp]; omega
    rw [hr'] at hne hlt
    rw [hsp] at hlt
    simp [Envelope.process, hph, hne, hlt, hsp, hrt, hsr, hsl]

/-- `modifyVoice` touches only the value stored at the key: the list of
keys of the table is unchanged. -/
theorem modifyVoice_keys (m : NotesMap) (k : Keycode) (f : Voice → Voice) :
    (modifyVoice m k f).map Prod.fst = m.map Prod.fst := by
  induction m with
  | nil => rfl
  | cons kv rest ih =>
    obtain ⟨k1, v1⟩ := kv
    by_cases h : k1 = k <;> simp [modifyVoice, h, ih]

/-- Looking up the modified key returns the transformed voice. -/
theorem lookup_modifyVoice (m : NotesMap) (k : Keycode) (f : Voice → Voice)
    (v : Voice) (hv : lookupVoice m k = some v) :
    lookupVoice (modifyVoice m k f) k = some (f v) := by
  induction m with
  | nil => simp [lookupVoice] at hv
  | cons kv rest ih =>
    obtain ⟨k1, v1⟩ := kv
    by_cases h : k1 = k
    · subst h
      simp [lookupVoice, modifyVoice] at hv ⊢
      rw [hv]
    · simp only [lookupVoice, modifyVoice, if_neg h] at hv ⊢
      exact ih hv

/-- `trigger()` preserves the envelope invariant. -/
theorem envInv_trigger (e : Envelope) (h : EnvInv e) : EnvInv e.trigger := by
  obtain ⟨h1, h2, h3, h4, -, -, -⟩ := h
  exact ⟨h1, h2, h3, h4, fun _ => Nat.zero_le _,
    fun hp => by simp [Envelope.trigger] at hp,
    fun hp => by simp [Envelope.trigger] at hp⟩

/-- `release()` preserves the envelope invariant. -/
theorem envInv_release (e : Envelope) (h : EnvInv e) : EnvInv e.release := by
  obtain ⟨h1, h2, h3, h4, -, -, -⟩ := h
  exact ⟨h1, h2, h3, h4,
    fun hp => by simp [Envelope.release] at hp,
    fun hp => by simp [Envelope.release] at hp,
    fun _ => Nat.zero_le _⟩

/-- `process()` preserves the envelope invariant. -/
theorem envInv_process (e : Envelope) (h : EnvInv e) : EnvInv ((e.process).2) := by
  obtain ⟨a1, d1, s1, r1, c1, ph, sr1, sp1⟩ := e
  obtain ⟨h1, h2, h3, h4, hA, hD, hR⟩ := h
  cases ph
  case Idle => exact ⟨h1, h2, h3, h4, hA, hD, hR⟩
  case Sustain => exact ⟨h1, h2, h3, h4, hA, hD, hR⟩
  case Attack =>
    have hsp : sp1 ≤ ratToUsize (a1 * sr1) := hA rfl
    by_cases ha : ratToUsize (a1 * sr1) = 0
    · simp only [Envelope.process, ha, reduceIte]
      exact ⟨h1, h2, by norm_num, by norm_num,
        fun hp => by simp at hp,
        fun _ => by
          show ratToUsize (d1 * sr1) = 0 ∨ 1 ≤ ratToUsize (d1 * sr1)
          omega,
        fun hp => by simp at hp⟩
    · by_cases htr : ratToUsize (a1 * sr1) ≤ sp1
      · have hspa : sp1 = ratToUsize (a1 * sr1) := le_antisymm hsp htr
        have hlvl : (sp1 : ℚ) / ((ratToUsize (a1 * sr1) : ℕ) : ℚ) = 1 := by
          rw [hspa]
          exact div_self (Nat.cast_ne_zero.mpr ha)
        simp only [Envelope.process, ha, htr, if_neg, if_true, reduceIte]
        exact ⟨h1, h2, by rw [hlvl] at *; norm_num, by rw [hlvl] at *,
          fun hp => by simp at hp,
          fun _ => by
            show ratToUsize (d1 * sr1) = 0 ∨ 1 ≤ ratToUsize (d1 * sr1)
            omega,
          fun hp => by simp at hp⟩
      · have hapos : (0 : ℚ) < ((ratToUsize (a1 * sr1) : ℕ) : ℚ) := by
          exact_mod_cast Nat.pos_of_ne_zero ha
        simp only [Envelope.process, ha, htr, reduceIte, if_neg]
        refine ⟨h1, h2, div_nonneg (Nat.cast_nonneg _) (Nat.cast_nonneg _),
          (div_le_one hapos).mpr (by exact_mod_cast hsp),
          fun _ => by
            show sp1 + 1 ≤ ratToUsize (a1 * sr1)
            omega,
          fun hp => by simp at hp,
          fun hp => by simp at hp⟩
  case Decay =>
    have hd' := hD rfl
    by_cases hd : ratToUsize (d1 * sr1) = 0
    · simp only [Envelope.process, hd, reduceIte]
      exact ⟨h1, h2, h1, h2, fun hp => by simp at hp,
        fun hp => by simp at hp, fun hp => by simp at hp⟩
    · have hspd : sp1 ≤ ratToUsize (d1 * sr1) := hd'.resolve_left hd
      have hdpos : (0 : ℚ) < ((ratToUsize (d1 * sr1) : ℕ) : ℚ) := by
        exact_mod_cast Nat.pos_of_ne_zero hd
      have hq0 : 0 ≤ (sp1 : ℚ) / ((ratToUsize (d1 * sr1) : ℕ) : ℚ) :=
        div_nonneg (Nat.cast_nonneg _) (Nat.cast_nonneg _)
      have hq1 : (sp1 : ℚ) / ((ratToUsize (d1 * sr1) : ℕ) : ℚ) ≤ 1 :=
        (div_le_one hdpos).mpr (by exact_mod_cast hspd)
      have hm0 : 0 ≤ (1 - s1) * ((sp1 : ℚ) / ((ratToUsize (d1 * sr1) : ℕ) : ℚ)) :=
        mul_nonneg (by linarith) hq0
      have hm1 : (1 - s1) * ((sp1 : ℚ) / ((ratToUsize (d1 * sr1) : ℕ) : ℚ)) ≤
          1 - s1 :=
        mul_le_of_le_one_right (by linarith) hq1
      by_cases htr : ratToUsize (d1 * sr1) ≤ sp1
      · simp only [Envelope.process, hd, htr, reduceIte, if_neg, if_true]
        exact ⟨h1, h2, by linarith, by linarith, fun hp => by simp at hp,
          fun hp => by simp at hp, fun hp => by simp at hp⟩
      · simp only [Envelope.process, hd, htr, reduceIte, if_neg]
        exact ⟨h1, h2, by linarith, by linarith, fun hp => by simp at hp,
          fun _ => Or.inr (by
            show sp1 + 1 ≤ ratToUsize (d1 * sr1)
            omega), fun hp => by simp at hp⟩
  case Release =>
    have hr' := hR rfl
    by_cases hr : ratToUsize (r1 * sr1) = 0
    · simp only [Envelope.process, hr, reduceIte]
      exact ⟨h1, h2, le_refl 0, by norm_num, fun hp => by simp at hp,
        fun hp => by simp at hp, fun hp => by simp at hp⟩
    · by_cases htr : ratToUsize (r1 * sr1) ≤ sp1
      · simp only [Envelope.process, hr, htr, reduceIte, if_true]
        exact ⟨h1, h2, le_refl 0, by norm_num, fun hp => by simp at hp,
          fun hp => by simp at hp, fun hp => by simp at hp⟩
      · have hrpos : (0 : ℚ) < ((ratToUsize (r1 * sr1) : ℕ) : ℚ) := by
          exact_mod_cast Nat.pos_of_ne_zero hr
        have hq0 : 0 ≤ (sp1 : ℚ) / ((ratToUsize (r1 * sr1) : ℕ) : ℚ) :=
          div_nonneg (Nat.cast_nonneg _) (Nat.cast_nonneg _)
        have hq1 : (sp1 : ℚ) / ((ratToUsize (r1 * sr1) : ℕ) : ℚ) ≤ 1 :=
          (div_le_one hrpos).mpr (by exact_mod_cast hr')
        have hl0 : 0 ≤ s1 * (1 - (sp1 : ℚ) / ((ratToUsize (r1 * sr1) : ℕ) : ℚ)) :=
          mul_nonneg h1 (by linarith)
        have hl1 : s1 * (1 - (sp1 : ℚ) / ((ratToUsize (r1 * sr1) : ℕ) : ℚ)) ≤ s1 :=
          mul_le_of_le_one_right h1 (by linarith)
        simp only [Envelope.process, hr, htr, reduceIte, if_neg]
        exact ⟨h1, h2, by linarith, by linarith, fun hp => by simp at hp,
          fun hp => by simp at hp,
          fun _ => by
            show sp1 + 1 ≤ ratToUsize (r1 * sr1)
            omega⟩

/-- A freshly constructed envelope satisfies the invariant when its
sustain level is in `[0,1]`. -/
theorem envInv_new (a d s r sr : ℚ) (hs0 : 0 ≤ s) (hs1 : s ≤ 1) :
    EnvInv (Envelope.new a d s r sr) :=
  ⟨hs0, hs1, le_refl 0, by norm_num [Envelope.new],
   fun hp => by simp [Envelope.new] at hp,
   fun hp => by simp [Envelope.new] at hp,
   fun hp => by simp [Envelope.new] at hp⟩

/-- The invariant is preserved by any sequence of envelope operations. -/
theorem envInv_applyOps (ops : List EnvOp) (e : Envelope) (h : EnvInv e) :
    EnvInv (applyOps ops e) := by
  induction ops generalizing e with
  | nil => exact h
  | cons op rest ih =>
    cases op
    · exact ih _ (envInv_trigger e h)
    · exact ih _ (envInv_release e h)
    · exact ih _ (envInv_process e h)

/-- Under the invariant, the `process()` call that leaves a stage puts
`current_level` exactly at the boundary value of that stage: Attack ends
at 1, Decay ends at `sustain_level`, Release ends at 0. -/
theorem process_boundary_levels (e : Envelope) (h : EnvInv e) :
    (e.phase = .Attack → ((e.process).2).phase = .Decay →
      ((e.process).2).current_level = 1) ∧
    (e.phase = .Decay → ((e.process).2).phase = .Sustain →
      ((e.process).2).current_level = e.sustain_level) ∧
    (e.phase = .Release → ((e.process).2).phase = .Idle →
      ((e.process).2).current_level = 0) := by
  obtain ⟨a1, d1, s1, r1, c1, ph, sr1, sp1⟩ := e
  obtain ⟨h1, h2, h3, h4, hA, hD, hR⟩ := h
  refine ⟨?_, ?_, ?_⟩
  · intro hph hdec
    cases ph <;> simp at hph
    have hsp : sp1 ≤ ratToUsize (a1 * sr1) := hA rfl
    by_cases ha : ratToUsize (a1 * sr1) = 0
    · simp only [Envelope.process, ha, reduceIte]
    · by_cases htr : ratToUsize (a1 * sr1) ≤ sp1
      · have hspa : sp1 = ratToUsize (a1 * sr1) := le_antisymm hsp htr
        simp only [Envelope.process, ha, htr, reduceIte, if_neg, if_true]
        show (sp1 : ℚ) / ((ratToUsize (a1 * sr1) : ℕ) : ℚ) = 1
        rw [hspa]
        exact div_self (Nat.cast_ne_zero.mpr ha)
      · simp only [Envelope.process, ha, htr, reduceIte, if_neg] at hdec
        exact absurd hdec (by simp)
  · intro hph hsus
    cases ph <;> simp at hph
    have hd' := hD rfl
    by_cases hd : ratToUsize (d1 * sr1) = 0
    · simp only [Envelope.process, hd, reduceIte]
    · have hspd : sp1 ≤ ratToUsize (d1 * sr1) := hd'.resolve_left hd
      by_cases htr : ratToUsize (d1 * sr1) ≤ sp1
      · have hspa : sp1 = ratToUsize (d1 * sr1) := le_antisymm hspd htr
        simp only [Envelope.process, hd, htr, reduceIte, if_neg, if_true]
        show 1 - (1 - s1) * ((sp1 : ℚ) / ((ratToUsize (d1 * sr1) : ℕ) : ℚ)) = s1
        rw [hspa, div_self (Nat.cast_ne_zero.mpr hd)]
        ring
      · simp only [Envelope.process, hd, htr, reduceIte, if_neg] at hsus
        exact absurd hsus (by simp)
  · intro hph hidle
    cases ph <;> simp at hph
    by_cases hr : ratToUsize (r1 * sr1) = 0
    · simp only [Envelope.process, hr, reduceIte]
    · by_cases htr : ratToUsize (r1 * sr1) ≤ sp1
      · simp only [Envelope.process, hr, htr, reduceIte, if_neg, if_true]
      · simp only [Envelope.process, hr, htr, reduceIte, if_neg] at hidle
        exact absurd hidle (by simp)

/-!  ## Claim theorems  -/

/-- Counterexample for C3: a `process()` call on an envelope in Sustain
leaves `samples_processed` unchanged (it stays 0), not incremented. -/
theorem process_in_sustain_leaves_counter_unchanged :
    ((sustainedEnvelope.process).2).samples_processed =
      sustainedEnvelope.samples_processed ∧
    ¬ ((sustainedEnvelope.process).2).samples_processed =
      sustainedEnvelope.samples_processed + 1 := by
  decide

/-- Claim C3 (amended): `process()` increments `samples_processed` by
one in the Decay and Release states and in a non-transitioning Attack
step; the Attack step that transitions to Decay resets the counter to 0
before the increment (leaving it at 1); in Idle and Sustain the counter
is left unchanged. -/
theorem process_counter_update (e : Envelope) :
    ((e.process).2).samples_processed =
      match e.phase with
      | .Idle => e.samples_processed
      | .Sustain => e.samples_processed
      | .Attack =>
        if ratToUsize (e.attack_time * e.sample_rate) = 0 ∨
            ratToUsize (e.attack_time * e.sample_rate) ≤ e.samples_processed
        then 1
        else e.samples_processed + 1
      | .Decay => e.samples_processed + 1
      | .Release => e.samples_processed + 1 := by
  obtain ⟨a1, d1, s1, r1, c1, ph, sr1, sp1⟩ := e
  cases ph <;> simp only [Envelope.process] <;> try rfl
  all_goals split_ifs <;> simp_all <;> omega

/-- Counterexample for C4: take attack 1 s, decay 1 s, sustain 0.7,
release 1 s at 10 Hz; trigger and process twice, reaching level 1/10 in
mid-Attack, then release.  The level at the moment of release is 1/10,
yet the first `process()` of the release yields 7/10: the release ramp
starts from `sustain_level`, not from the level held at release, and
even moves upward. -/
theorem release_ramp_ignores_level_at_release :
    ((((Envelope.new 1 1 0.7 1 10).trigger).processN 2).release).current_level
      = 1/10 ∧
    ((((((Envelope.new 1 1 0.7 1 10).trigger).processN 2).release).process).2).current_level
      = 7/10 ∧
    ¬ ((((((Envelope.new 1 1 0.7 1 10).trigger).processN 2).release).process).2).current_level
      ≤ ((((Envelope.new 1 1 0.7 1 10).trigger).processN 2).release).current_level := by
  have ht : Int.toNat 10 = 10 := rfl
  norm_num [Envelope.new, Envelope.trigger, Envelope.release, Envelope.processN,
    Envelope.process, ratToUsize, ht]

/-- Claim C4 (amended): after `release()` is called in any envelope
state, `process()` ramps `current_level` linearly from `sustain_level`
(not from the level held at the moment of release) down to 0 over
`release_time * sample_rate` samples — the call with counter `k < r`
yields `sustain_level * (1 - k/r)` — after which the phase becomes
`Idle` with level 0; a release duration truncating to 0 samples snaps
to level 0 and `Idle` on the first call. -/
theorem release_ramps_from_sustain_level (e : Envelope) (k : ℕ)
    (hk : k ≤ ratToUsize (e.release_time * e.sample_rate)) :
    (k < ratToUsize (e.release_time * e.sample_rate) →
      ((e.release).processN (k + 1)).phase = .Release ∧
      ((e.release).processN (k + 1)).current_level =
        e.sustain_level *
          (1 - (k : ℚ) / (ratToUsize (e.release_time * e.sample_rate) : ℚ))) ∧
    (((e.release).processN
        (ratToUsize (e.release_time * e.sample_rate) + 1)).phase = .Idle ∧
     ((e.release).processN
        (ratToUsize (e.release_time * e.sample_rate) + 1)).current_level = 0) := by
  constructor
  · intro hkr
    have hr : 1 ≤ ratToUsize (e.release_time * e.sample_rate) := by omega
    obtain ⟨hph, hsp, hrt, hsr, hsl⟩ :=
      release_processN_state e hr k (le_of_lt hkr)
    rw [processN_succ]
    have hr' : ratToUsize (((e.release).processN k).release_time *
        ((e.release).processN k).sample_rate) =
        ratToUsize (e.release_time * e.sample_rate) := by
      rw [hrt, hsr]
    have hne : ¬ ratToUsize (((e.release).processN k).release_time *
        ((e.release).processN k).sample_rate) = 0 := by
      rw [hr']; omega
    have hlt : ¬ ratToUsize (((e.release).processN k).release_time *
        ((e.release).processN k).sample_rate) ≤
        ((e.release).processN k).samples_processed := by
      rw [hr', hsp]; omega
    rw [hr'] at hne hlt
    rw [hsp] at hlt
    simp [Envelope.process, hph, hne, hlt, hsp, hrt, hsr, hsl]
  · by_cases hr : 1 ≤ ratToUsize (e.release_time * e.sample_rate)
    · obtain ⟨hph, hsp, hrt, hsr, hsl⟩ :=
        release_processN_state e hr
          (ratToUsize (e.release_time * e.sample_rate)) le_rfl
      rw [processN_succ]
      have hr' : ratToUsize
          (((e.release).processN
              (ratToUsize (e.release_time * e.sample_rate))).release_time *
            ((e.release).processN
              (ratToUsize (e.release_time * e.sample_rate))).sample_rate) =
          ratToUsize (e.release_time * e.sample_rate) := by
        rw [hrt, hsr]
      have hne : ¬ ratToUsize (e.release_time * e.sample_rate) = 0 := by omega
      have hge : ratToUsize (e.release_time * e.sample_rate) ≤
          ((e.release).processN
            (ratToUsize (e.release_time * e.sample_rate))).samples_processed := by
        rw [hsp]
      simp [Envelope.process, hph, hr', hne, hge]
    · have hr0 : ratToUsize (e.release_time * e.sample_rate) = 0 := by omega
      rw [hr0]
      have h1 : (e.release).phase = .Release := rfl
      have h2 : (e.release).release_time = e.release_time := rfl
      have h3 : (e.release).sample_rate = e.sample_rate := rfl
      simp [Envelope.processN, Envelope.process, h1, h2, h3, hr0]

/-- Witness for C4 (amended) at the Sustain-state envelope with release
1/5 s at 10 Hz (so r = 2 samples), one sample into the ramp (k = 1). -/
theorem release_ramps_from_sustain_level_witness :
    1 ≤ ratToUsize (sustainedEnvelope.release_time *
        sustainedEnvelope.sample_rate) ∧
    ((1 < ratToUsize (sustainedEnvelope.release_time *
          sustainedEnvelope.sample_rate) →
      ((sustainedEnvelope.release).processN (1 + 1)).phase = .Release ∧
      ((sustainedEnvelope.release).processN (1 + 1)).current_level =
        sustainedEnvelope.sustain_level *
          (1 - (1 : ℚ) / (ratToUsize (sustainedEnvelope.release_time *
            sustainedEnvelope.sample_rate) : ℚ))) ∧
     (((sustainedEnvelope.release).processN
         (ratToUsize (sustainedEnvelope.release_time *
           sustainedEnvelope.sample_rate) + 1)).phase = .Idle ∧
      ((sustainedEnvelope.release).processN
         (ratToUsize (sustainedEnvelope.release_time *
           sustainedEnvelope.sample_rate) + 1)).current_level = 0)) :=
  ⟨by norm_num [ratToUsize, sustainedEnvelope, Envelope.new],
   release_ramps_from_sustain_level sustainedEnvelope 1
     (by norm_num [ratToUsize, sustainedEnvelope, Envelope.new])⟩

/-- Claim C9: when the attack duration truncates to at least one sample,
the first `process()` after `trigger()` returns 0 and sets the level to
0, whatever the state and level were at the moment of the trigger. -/
theorem first_process_after_trigger_is_zero (e : Envelope)
    (h : 1 ≤ ratToUsize (e.attack_time * e.sample_rate)) :
    ((e.trigger).process).1 = 0 ∧ ((e.trigger).process).2.current_level = 0 := by
  have h0 : ¬ ratToUsize (e.attack_time * e.sample_rate) = 0 := by omega
  have h1 : ¬ ratToUsize (e.attack_time * e.sample_rate) ≤ (0 : ℕ) := by omega
  simp [Envelope.trigger, Envelope.process, h0, h1]

/-- Witness for C9: retriggering the concrete Sustain-state envelope
(level 0.7) makes the next `process()` return 0. -/
theorem first_process_after_trigger_is_zero_witness :
    1 ≤ ratToUsize (sustainedEnvelope.attack_time *
      sustainedEnvelope.sample_rate) ∧
    (((sustainedEnvelope.trigger).process).1 = 0 ∧
     ((sustainedEnvelope.trigger).process).2.current_level = 0) :=
  ⟨by norm_num [ratToUsize, sustainedEnvelope, Envelope.new],
   first_process_after_trigger_is_zero sustainedEnvelope
     (by norm_num [ratToUsize, sustainedEnvelope, Envelope.new])⟩

/-- Claim C5: for every phase in `[0,1)` and each of the four oscillator
variants the generated waveform value lies in `[-1,1]`, and at phase `0`
the values are sine `0`, square `1`, sawtooth `-1`, triangle `-1`. -/
theorem oscillator_sample_bounded_and_zero_values (o : Oscillator) (phase : ℝ)
    (h0 : 0 ≤ phase) (h1 : phase < 1) :
    (-1 ≤ o.sample phase ∧ o.sample phase ≤ 1) ∧
    (Oscillator.sample .Sine 0 = 0 ∧ Oscillator.sample .Square 0 = 1 ∧
     Oscillator.sample .Sawtooth 0 = -1 ∧ Oscillator.sample .Triangle 0 = -1) := by
  constructor
  · cases o
    · simpa [Oscillator.sample] using
        ⟨Real.neg_one_le_sin (2 * Real.pi * phase),
         Real.sin_le_one (2 * Real.pi * phase)⟩
    · simp only [Oscillator.sample]
      split_ifs <;> norm_num
    · simp only [Oscillator.sample]
      constructor <;> linarith
    · simp only [Oscillator.sample]
      split_ifs with h <;> norm_num at h ⊢ <;> constructor <;> linarith
  · refine ⟨?_, ?_, ?_, ?_⟩ <;> simp [Oscillator.sample] <;> norm_num

/-- Witness for C5 at the concrete input `Triangle`, `phase = 1/2`. -/
theorem oscillator_sample_bounded_and_zero_values_witness :
    ((0 : ℝ) ≤ 1/2 ∧ (1/2 : ℝ) < 1) ∧
    ((-1 ≤ Oscillator.sample .Triangle (1/2) ∧
      Oscillator.sample .Triangle (1/2) ≤ 1) ∧
     (Oscillator.sample .Sine 0 = 0 ∧ Oscillator.sample .Square 0 = 1 ∧
      Oscillator.sample .Sawtooth 0 = -1 ∧ Oscillator.sample .Triangle 0 = -1)) :=
  ⟨⟨by norm_num, by norm_num⟩,
   oscillator_sample_bounded_and_zero_values .Triangle (1/2)
     (by norm_num) (by norm_num)⟩

/-- Claim C6: for a playing voice with `0 ≤ frequency < sample_rate` and
phase in `[0,1)`, `generate_sample` advances the phase accumulator by
`frequency / sample_rate`, wraps it, and the result is again in `[0,1)`. -/
theorem generate_sample_phase_advance_and_invariant (n : Note)
    (phase sample_rate : ℝ) (hp : n.is_playing = true)
    (hf0 : 0 ≤ n.frequency) (hfs : n.frequency < sample_rate)
    (h0 : 0 ≤ phase) (h1 : phase < 1) :
    (n.generate_sample phase sample_rate).2 =
      (if 1 ≤ phase + n.frequency / sample_rate
       then phase + n.frequency / sample_rate - 1
       else phase + n.frequency / sample_rate) ∧
    0 ≤ (n.generate_sample phase sample_rate).2 ∧
    (n.generate_sample phase sample_rate).2 < 1 := by
  have hsr : (0 : ℝ) < sample_rate := lt_of_le_of_lt hf0 hfs
  have hd0 : 0 ≤ n.frequency / sample_rate := div_nonneg hf0 hsr.le
  have hd1 : n.frequency / sample_rate < 1 := (div_lt_one hsr).mpr hfs
  refine ⟨by simp [Note.generate_sample, hp], ?_, ?_⟩ <;>
    simp only [Note.generate_sample, hp] <;>
    norm_num <;>
    split_ifs with h <;>
    linarith

/-- Witness for C6 at a concrete playing note: frequency 440, sample
rate 48000, phase 1/4. -/
theorem generate_sample_phase_advance_witness :
    (({ Note.new 440 .Sine with is_playing := true } : Note).is_playing = true ∧
     (0 : ℝ) ≤ ({ Note.new 440 .Sine with is_playing := true } : Note).frequency ∧
     ({ Note.new 440 .Sine with is_playing := true } : Note).frequency < 48000 ∧
     (0 : ℝ) ≤ (1/4 : ℝ) ∧ (1/4 : ℝ) < 1) ∧
    (({ Note.new 440 .Sine with is_playing := true } :
        Note).generate_sample (1/4) 48000).2 =
      (if 1 ≤ (1/4 : ℝ) + ({ Note.new 440 .Sine with is_playing := true} :
            Note).frequency / 48000
       then (1/4 : ℝ) + ({ Note.new 440 .Sine with is_playing := true} :
            Note).frequency / 48000 - 1
       else (1/4 : ℝ) + ({ Note.new 440 .Sine with is_playing := true} :
            Note).frequency / 48000) ∧
    0 ≤ (({ Note.new 440 .Sine with is_playing := true } :
        Note).generate_sample (1/4) 48000).2 ∧
    (({ Note.new 440 .Sine with is_playing := true } :
        Note).generate_sample (1/4) 48000).2 < 1 :=
  ⟨⟨rfl, by norm_num [Note.new], by norm_num [Note.new], by norm_num, by norm_num⟩,
   generate_sample_phase_advance_and_invariant
     { Note.new 440 .Sine with is_playing := true } (1/4) 48000 rfl
     (by norm_num [Note.new]) (by norm_num [Note.new]) (by norm_num) (by norm_num)⟩

/-- Claim C10: `generate_sample` advances and wraps the phase before
evaluating the waveform: the returned sample is the waveform at the
already-advanced (returned) phase, and for a fresh voice at phase `0`
with `0 < frequency < sample_rate` the waveform is evaluated at
`frequency / sample_rate ≠ 0`, never at phase `0`. -/
theorem generate_sample_evaluates_advanced_phase (n : Note)
    (phase sample_rate : ℝ) (hp : n.is_playing = true) :
    (n.generate_sample phase sample_rate).1 =
      n.oscillator.sample ((n.generate_sample phase sample_rate).2) *
        n.amplitude ∧
    (phase = 0 → 0 < n.frequency → n.frequency < sample_rate →
      (n.generate_sample phase sample_rate).2 = n.frequency / sample_rate ∧
      (n.generate_sample phase sample_rate).2 ≠ 0) := by
  constructor
  · simp [Note.generate_sample, hp]
  · rintro rfl hf hfs
    have hsr : (0 : ℝ) < sample_rate := lt_trans hf hfs
    have hd1 : n.frequency / sample_rate < 1 := (div_lt_one hsr).mpr hfs
    have hd0 : 0 < n.frequency / sample_rate := div_pos hf hsr
    have h2 : (n.generate_sample 0 sample_rate).2 = n.frequency / sample_rate := by
      simp only [Note.generate_sample, hp]
      norm_num
      linarith
    exact ⟨h2, h2 ▸ ne_of_gt hd0⟩

/-- Witness for C10 at a fresh playing voice: frequency 440, phase 0,
sample rate 48000. -/
theorem generate_sample_evaluates_advanced_phase_witness :
    (({ Note.new 440 .Sine with is_playing := true } : Note).is_playing = true) ∧
    ((({ Note.new 440 .Sine with is_playing := true } :
        Note).generate_sample 0 48000).1 =
      ({ Note.new 440 .Sine with is_playing := true } :
        Note).oscillator.sample
          ((({ Note.new 440 .Sine with is_playing := true } :
            Note).generate_sample 0 48000).2) *
        ({ Note.new 440 .Sine with is_playing := true } : Note).amplitude ∧
     ((0 : ℝ) = 0 →
      0 < ({ Note.new 440 .Sine with is_playing := true } : Note).frequency →
      ({ Note.new 440 .Sine with is_playing := true } : Note).frequency < 48000 →
      (({ Note.new 440 .Sine with is_playing := true } :
          Note).generate_sample 0 48000).2 =
        ({ Note.new 440 .Sine with is_playing := true } :
          Note).frequency / 48000 ∧
      (({ Note.new 440 .Sine with is_playing := true } :
          Note).generate_sample 0 48000).2 ≠ 0)) :=
  ⟨rfl, generate_sample_evaluates_advanced_phase
    { Note.new 440 .Sine with is_playing := true } 0 48000 rfl⟩

/-- Claim C7: a note-on for a key that already has a live voice creates
no second voice (the key list of the notes table is unchanged),
retriggers the existing envelope, and leaves the phase accumulator of
the voice untouched — the stored phase value is the one the next
rendered sample will use. -/
theorem note_on_existing_key_retriggers (sample_rate : ℚ) (osc : Oscillator)
    (m : NotesMap) (k : Keycode) (v : Voice)
    (hv : lookupVoice m k = some v)
    (hf : (keyFrequencyMap k).isSome = true) :
    (handleEvent sample_rate osc m k true).map Prod.fst = m.map Prod.fst ∧
    lookupVoice (handleEvent sample_rate osc m k true) k =
      some ({ v.1 with is_playing := true }, v.2.1, v.2.2.trigger) := by
  rcases Option.isSome_iff_exists.mp hf with ⟨freq, hfk⟩
  have hck : containsKey m k = true := by simp [containsKey, hv]
  constructor
  · simp [handleEvent, hfk, hck, modifyVoice_keys]
  · simp only [handleEvent, hfk, hck, if_true, if_pos]
    exact lookup_modifyVoice m k _ v hv

/-- Witness for C7: the one-voice table under key Z keeps exactly its
key, its phase stays 1/4, and its envelope is retriggered. -/
theorem note_on_existing_key_retriggers_witness :
    (lookupVoice exampleNotes Keycode.Z = some exampleVoice ∧
     (keyFrequencyMap Keycode.Z).isSome = true) ∧
    ((handleEvent 48000 .Sine exampleNotes Keycode.Z true).map Prod.fst =
       exampleNotes.map Prod.fst ∧
     lookupVoice (handleEvent 48000 .Sine exampleNotes Keycode.Z true)
         Keycode.Z =
       some ({ exampleVoice.1 with is_playing := true }, exampleVoice.2.1,
         exampleVoice.2.2.trigger)) :=
  ⟨⟨rfl, rfl⟩,
   note_on_existing_key_retriggers 48000 .Sine exampleNotes Keycode.Z
     exampleVoice rfl rfl⟩

/-- Claim C1 (code bug): the source calls `notes.retain(...)` inside the
frame loop, so the reap runs once per output frame — for an `n`-frame
buffer it runs `n` times, not once per buffer; in particular a 2-frame
buffer performs 2 reap invocations. -/
theorem reap_invoked_once_per_frame (sample_rate : ℚ) (frames : ℕ)
    (notes : NotesMap) :
    (renderBuffer sample_rate frames notes).2.2 = frames ∧
    ((renderBuffer 48000 2 []).2.2 = 2 ∧ ¬ (renderBuffer 48000 2 []).2.2 = 1) := by
  have key : ∀ (sr : ℚ) (n : ℕ) (m : NotesMap), (renderBuffer sr n m).2.2 = n := by
    intro sr n
    induction n with
    | zero => intro m; simp [renderBuffer]
    | succ k ih => intro m; simp [renderBuffer, ih]
  exact ⟨key _ _ _, by simp [key], by simp [key]⟩

/-- Claim C2 (code bug): the input-polling producer pushes with
`.unwrap()`, so when the 1024-slot channel is full the push failure
panics the producer thread (modelled `none`) instead of dropping the
event and continuing. -/
theorem producer_panics_on_full_channel :
    pollTick (List.replicate 1024 (Keycode.Z, true)) [] [Keycode.Z] = none := by
  have h1 : tryPush (List.replicate 1024 (Keycode.Z, true)) (Keycode.Z, true)
      = none := by
    unfold tryPush
    rw [if_neg]
    rw [List.length_replicate]
    omega
  have h2 : pollTick (List.replicate 1024 (Keycode.Z, true)) [] [Keycode.Z]
      = pushAllOrPanic (List.replicate 1024 (Keycode.Z, true))
          [(Keycode.Z, true)] := rfl
  rw [h2]
  simp only [pushAllOrPanic, h1]

/-- Claim C8: for an envelope constructed with sustain level in
`[0,1]`, `current_level` stays in `[0,1]` under every sequence of
`trigger()`, `release()` and `process()` calls, and the stage
boundaries are exact: the `process()` call that leaves Attack sets the
level to 1, the one that leaves Decay sets it to `sustain_level`, and
the one that leaves Release sets it to 0. -/
theorem envelope_level_bounded_and_boundary (a d s r sr : ℚ)
    (hs0 : 0 ≤ s) (hs1 : s ≤ 1) (ops : List EnvOp) :
    (0 ≤ (applyOps ops (Envelope.new a d s r sr)).current_level ∧
     (applyOps ops (Envelope.new a d s r sr)).current_level ≤ 1) ∧
    ((applyOps ops (Envelope.new a d s r sr)).phase = .Attack →
      (((applyOps ops (Envelope.new a d s r sr)).process).2).phase = .Decay →
      (((applyOps ops (Envelope.new a d s r sr)).process).2).current_level
        = 1) ∧
    ((applyOps ops (Envelope.new a d s r sr)).phase = .Decay →
      (((applyOps ops (Envelope.new a d s r sr)).process).2).phase = .Sustain →
      (((applyOps ops (Envelope.new a d s r sr)).process).2).current_level
        = (applyOps ops (Envelope.new a d s r sr)).sustain_level) ∧
    ((applyOps ops (Envelope.new a d s r sr)).phase = .Release →
      (((applyOps ops (Envelope.new a d s r sr)).process).2).phase = .Idle →
      (((applyOps ops (Envelope.new a d s r sr)).process).2).current_level
        = 0) := by
  have hinv := envInv_applyOps ops _ (envInv_new a d s r sr hs0 hs1)
  obtain ⟨b1, b2, b3⟩ :=
    process_boundary_levels (applyOps ops (Envelope.new a d s r sr)) hinv
  exact ⟨⟨hinv.2.2.1, hinv.2.2.2.1⟩, b1, b2, b3⟩

/-- Witness for C8 at the concrete parameters attack 1 s, decay 1 s,
sustain 0.7, release 1 s, sample rate 10 Hz, with the empty call
sequence. -/
theorem envelope_level_bounded_and_boundary_witness :
    ((0 : ℚ) ≤ 0.7 ∧ (0.7 : ℚ) ≤ 1) ∧
    ((0 ≤ (applyOps [] (Envelope.new 1 1 0.7 1 10)).current_level ∧
      (applyOps [] (Envelope.new 1 1 0.7 1 10)).current_level ≤ 1) ∧
     ((applyOps [] (Envelope.new 1 1 0.7 1 10)).phase = .Attack →
       (((applyOps [] (Envelope.new 1 1 0.7 1 10)).process).2).phase = .Decay →
       (((applyOps [] (Envelope.new 1 1 0.7 1 10)).process).2).current_level
         = 1) ∧
     ((applyOps [] (Envelope.new 1 1 0.7 1 10)).phase = .Decay →
       (((applyOps [] (Envelope.new 1 1 0.7 1 10)).process).2).phase
         = .Sustain →
       (((applyOps [] (Envelope.new 1 1 0.7 1 10)).process).2).current_level
         = (applyOps [] (Envelope.new 1 1 0.7 1 10)).sustain_level) ∧
     ((applyOps [] (Envelope.new 1 1 0.7 1 10)).phase = .Release →
       (((applyOps [] (Envelope.new 1 1 0.7 1 10)).process).2).phase = .Idle →
       (((applyOps [] (Envelope.new 1 1 0.7 1 10)).process).2).current_level
         = 0)) :=
  ⟨⟨by norm_num, by norm_num⟩,
   envelope_level_bounded_and_boundary 1 1 0.7 1 10
     (by norm_num) (by norm_num) []⟩

end Synth
